import Mathlib

/-!
Shallow embedding of the `react-perf-interview` stock-ticker demo.

The TypeScript sources model a list of synthetic stock records
(`src/utils/mockData.ts`), a 100 ms timer that rewrites every record's
price-derived fields (`App.tsx`), a row renderer with formatting helpers
(`src/components/StockItem.tsx`) and an FPS gauge
(`src/components/FPSCounter.tsx`).

JavaScript numbers are embedded as rationals (`ℚ`); `Math.round x` is
`⌊x + 1/2⌋` (round half toward +∞, as in JS), `Math.floor` is `⌊·⌋`,
and every `Math.random()` draw becomes an explicit rational parameter
in `[0, 1)`.  Division by zero (`Infinity`/`NaN`) is modelled by the
`JsNum` type.  `volume` and `marketCap` are produced by
`Math.floor(...) + const`, hence integer-valued; they are embedded as `ℤ`.
-/

namespace ReactPerf

/-- JS `Math.round`: round half toward positive infinity. -/
def jsRound (q : ℚ) : ℤ := ⌊q + 1/2⌋

/-- `Math.round (q * 100) / 100`: round to two decimals, the idiom used
throughout the sources. -/
def round2 (q : ℚ) : ℚ := (jsRound (q * 100) : ℚ) / 100

/-- Decimal digit to its ASCII character. -/
def digitChar (d : ℕ) : Char := Char.ofNat (48 + d)

/-- Little-endian decimal digits, with explicit fuel so the recursion is
structural and the kernel can evaluate it. -/
def natDigitsAux : ℕ → ℕ → List ℕ
  | 0, _ => []
  | _ + 1, 0 => []
  | fuel + 1, n + 1 => (n + 1) % 10 :: natDigitsAux fuel ((n + 1) / 10)

/-- Little-endian decimal digits of a natural number. -/
def natDigits (n : ℕ) : List ℕ := natDigitsAux n n

/-- Decimal rendering of a natural number (JS `Number.prototype.toString`
restricted to naturals): most-significant digit first, `"0"` for zero. -/
def natRepr (n : ℕ) : String :=
  if n = 0 then "0" else ⟨((natDigits n).map digitChar).reverse⟩

/-- Decimal rendering of an integer-valued JS number. -/
def intRepr (v : ℤ) : String :=
  (if v < 0 then "-" else "") ++ natRepr v.natAbs

/-- JS `String.prototype.toUpperCase` (ASCII letters suffice here),
character by character. -/
def jsToUpper (s : String) : String := ⟨s.data.map Char.toUpper⟩

/-- JS `s.substring(0, n)`: the first `n` characters of `s`. -/
def jsSubstr (s : String) (n : ℕ) : String := ⟨s.data.take n⟩

/-- JS `Number.prototype.toFixed(2)`: nearest multiple of `1/100`, ties
toward the larger value, rendered with exactly two decimal places. -/
def jsToFixed2 (q : ℚ) : String :=
  let n : ℤ := jsRound (q * 100)
  let m : ℕ := n.natAbs
  (if n < 0 then "-" else "") ++ natRepr (m / 100) ++ "." ++
    (if m % 100 < 10 then "0" else "") ++ natRepr (m % 100)

/-- Insert a `','` after every third character of a reversed digit list:
the grouping step of `toLocaleString` for an `en`-style locale. -/
def chunk3 : List Char → List Char
  | a :: b :: c :: d :: rest => a :: b :: c :: ',' :: chunk3 (d :: rest)
  | l => l

/-- JS `Number.prototype.toLocaleString` on naturals: decimal digits with
thousands separators. -/
def natGrouped (n : ℕ) : String := ⟨(chunk3 (natRepr n).data.reverse).reverse⟩

/-- `toLocaleString` on integer-valued JS numbers. -/
def intGrouped (v : ℤ) : String :=
  (if v < 0 then "-" else "") ++ natGrouped v.natAbs

/-! ### Data model (`src/utils/mockData.ts`) -/

/-- The `sectors` array of `mockData.ts`. -/
def sectors : List String :=
  ["Technology", "Finance", "Healthcare", "Energy", "Consumer"]

/-- The `companies` array of `mockData.ts`. -/
def companies : List String :=
  ["TechCorp", "GlobalBank", "MediHealth", "PowerGrid", "RetailMax",
   "CloudNet", "InvestPro", "BioPharm", "SolarWave", "ShopEase"]

/-- The `exchanges` array of `mockData.ts`. -/
def exchanges : List String := ["NYSE", "NASDAQ", "LSE", "TSE", "HKEX"]

/-- The `StockData` interface of `mockData.ts`. -/
structure StockData where
  id : ℕ
  symbol : String
  company : String
  sector : String
  exchange : String
  price : ℚ
  openPrice : ℚ
  dayHigh : ℚ
  dayLow : ℚ
  volume : ℤ
  marketCap : ℤ
  deriving DecidableEq

/-- The six `Math.random()` draws consumed by one loop iteration of
`generateMockData`, in source order. -/
structure GenRand where
  priceR : ℚ
  openR : ℚ
  highR : ℚ
  lowR : ℚ
  volR : ℚ
  capR : ℚ

/-- All six draws lie in `[0, 1)`, the range of `Math.random()`. -/
def GenRand.inUnit (g : GenRand) : Prop :=
  (0 ≤ g.priceR ∧ g.priceR < 1) ∧ (0 ≤ g.openR ∧ g.openR < 1) ∧
  (0 ≤ g.highR ∧ g.highR < 1) ∧ (0 ≤ g.lowR ∧ g.lowR < 1) ∧
  (0 ≤ g.volR ∧ g.volR < 1) ∧ (0 ≤ g.capR ∧ g.capR < 1)

/-- One loop iteration of `generateMockData` (index `i`, randomness `g`). -/
def mkStock (i : ℕ) (g : GenRand) : StockData :=
  let company := companies.getD (i % companies.length) ""
  let basePrice := round2 (g.priceR * 500 + 10)
  let openPrice := round2 (basePrice + (g.openR - 1/2) * 20)
  { id := i + 1
    symbol := jsToUpper (jsSubstr company 3) ++ natRepr i
    company := company ++ " Inc."
    sector := sectors.getD (i % sectors.length) ""
    exchange := exchanges.getD (i % exchanges.length) ""
    price := basePrice
    openPrice := openPrice
    dayHigh := round2 (basePrice + g.highR * 15)
    dayLow := round2 (basePrice - g.lowR * 15)
    volume := ⌊g.volR * 10000000⌋ + 100000
    marketCap := ⌊g.capR * 1000000000⌋ + 10000000 }

/-- `generateMockData`: `n` records, record `i` consuming draws `rand i`. -/
def generateMockData (n : ℕ) (rand : ℕ → GenRand) : List StockData :=
  (List.range n).map fun i => mkStock i (rand i)

/-! ### Periodic mutator (`App.tsx`, the `priceUpdateInterval` callback) -/

/-- The per-record body of the interval callback in `App.tsx`:
`change = (Math.random() - 0.5) * 5`, `newPrice = Math.max(1, price + change)`,
then a copy of the record with rounded `price` and updated
`dayHigh`/`dayLow` (both computed from the clamped, unrounded `newPrice`). -/
def tickStock (r : ℚ) (stock : StockData) : StockData :=
  let change := (r - 1/2) * 5
  let newPrice := max 1 (stock.price + change)
  { stock with
    price := round2 newPrice
    dayHigh := max stock.dayHigh newPrice
    dayLow := min stock.dayLow newPrice }

/-- `prevStocks.map (stock => ...)` with one fresh draw per element; `i` is
the index of the first element of the remaining list. -/
def tickAllAux (rand : ℕ → ℚ) : ℕ → List StockData → List StockData
  | _, [] => []
  | i, s :: rest => tickStock (rand i) s :: tickAllAux rand (i + 1) rest

/-- One mutator tick over the whole collection. -/
def tickAll (rand : ℕ → ℚ) (stocks : List StockData) : List StockData :=
  tickAllAux rand 0 stocks

/-- `n` mutator ticks; `rands t i` is the draw of stock `i` at tick `t`. -/
def tickN (rands : ℕ → ℕ → ℚ) : ℕ → List StockData → List StockData
  | 0, stocks => stocks
  | n + 1, stocks => tickAll (rands n) (tickN rands n stocks)

/-! ### Row renderer (`src/components/StockItem.tsx`) -/

/-- `formatVolume` of `StockItem.tsx`, on the integer-valued volumes this
program produces. -/
def formatVolume (vol : ℤ) : String :=
  if vol ≥ 1000000 then jsToFixed2 ((vol : ℚ) / 1000000) ++ "M"
  else if vol ≥ 1000 then jsToFixed2 ((vol : ℚ) / 1000) ++ "K"
  else intRepr vol

/-- `formatMarketCap` of `StockItem.tsx`, on the integer-valued caps this
program produces. -/
def formatMarketCap (cap : ℤ) : String :=
  if cap ≥ 1000000000 then "$" ++ jsToFixed2 ((cap : ℚ) / 1000000000) ++ "B"
  else if cap ≥ 1000000 then "$" ++ jsToFixed2 ((cap : ℚ) / 1000000) ++ "M"
  else "$" ++ intGrouped cap

/-- A JS `number` split by finiteness: a finite rational, an infinity, or
`NaN`. -/
inductive JsNum where
  | fin : ℚ → JsNum
  | posInf : JsNum
  | negInf : JsNum
  | nan : JsNum
  deriving DecidableEq

/-- Whether a `JsNum` is finite (JS `Number.isFinite`). -/
def JsNum.isFinite : JsNum → Bool
  | .fin _ => true
  | _ => false

/-- JS division of two finite numbers, including the division-by-zero
behaviour: `x / 0` is `±Infinity` for `x ≠ 0` and `NaN` for `x = 0`. -/
def jsDiv (a b : ℚ) : JsNum :=
  if b = 0 then
    if 0 < a then .posInf else if a < 0 then .negInf else .nan
  else .fin (a / b)

/-- JS multiplication on `JsNum` (the cases reachable here: an infinity
times a nonzero finite keeps its sign; times zero gives `NaN`; `NaN`
propagates). -/
def jsMul : JsNum → JsNum → JsNum
  | .fin x, .fin y => .fin (x * y)
  | .nan, _ => .nan
  | _, .nan => .nan
  | .posInf, .posInf => .posInf
  | .posInf, .negInf => .negInf
  | .negInf, .posInf => .negInf
  | .negInf, .negInf => .posInf
  | .posInf, .fin y => if 0 < y then .posInf else if y < 0 then .negInf else .nan
  | .fin x, .posInf => if 0 < x then .posInf else if x < 0 then .negInf else .nan
  | .negInf, .fin y => if 0 < y then .negInf else if y < 0 then .posInf else .nan
  | .fin x, .negInf => if 0 < x then .negInf else if x < 0 then .posInf else .nan

/-- `changePercent = (priceChange / openPrice) * 100` of `StockItem.tsx`,
with `priceChange = price - openPrice`; no guard for `openPrice = 0`
appears in the source. -/
def changePercent (price openPrice : ℚ) : JsNum :=
  jsMul (jsDiv (price - openPrice) openPrice) (.fin 100)

/-- `getStatusText` of `FPSCounter.tsx` (the `fps` state is an integer,
being the result of `Math.round`). -/
def getStatusText (fps : ℤ) : String :=
  if fps ≥ 50 then "✓ Optimal"
  else if fps ≥ 20 then "⚠ Reduced"
  else "✗ Poor"

/-- The watchlist `onClick` of `StockItem.tsx` as a transformer of the pair
(shared collection, local `watchlisted` flag): it only flips the local
flag (`setWatchlisted (!watchlisted)`), logging aside. -/
def watchlistClick (shared : List StockData) (w : Bool) :
    List StockData × Bool := (shared, !w)

/-- The trade `onClick` of `StockItem.tsx`: it only shows an alert, leaving
both the shared collection and the local flag unchanged. -/
def tradeClick (shared : List StockData) (w : Bool) :
    List StockData × Bool := (shared, w)

/-- Modelled from the claim wording for the mutator (spec section 4.2):
identical to `tickStock` except that `dayHigh`/`dayLow` are computed from
the pre-clamp (un-floored) price `stock.price + change`.  Used only to
compare the claimed behaviour with the source behaviour. -/
def tickStockPreClamp (r : ℚ) (stock : StockData) : StockData :=
  let change := (r - 1/2) * 5
  let rawPrice := stock.price + change
  { stock with
    price := round2 (max 1 rawPrice)
    dayHigh := max stock.dayHigh rawPrice
    dayLow := min stock.dayLow rawPrice }

/-- The fields of a record that the mutator never touches, bundled for the
frame condition. -/
def frameFields (s : StockData) : ℕ × String × String × String × String × ℚ × ℤ × ℤ :=
  (s.id, s.symbol, s.company, s.sector, s.exchange, s.openPrice, s.volume, s.marketCap)

/-- A throwaway record, used only as the default of `List.getD`. -/
def emptyStock : StockData := ⟨0, "", "", "", "", 0, 0, 0, 0, 0, 0⟩

/-! ### Decimal rendering lemmas -/

theorem natDigitsAux_eq (fuel n : ℕ) (h : n ≤ fuel) :
    natDigitsAux fuel n = Nat.digits 10 n := by
  induction fuel generalizing n with
  | zero =>
    have hn : n = 0 := Nat.le_zero.mp h
    subst hn
    simp [natDigitsAux]
  | succ f ih =>
    cases n with
    | zero => simp [natDigitsAux]
    | succ m =>
      rw [show natDigitsAux (f + 1) (m + 1)
            = (m + 1) % 10 :: natDigitsAux f ((m + 1) / 10) from rfl,
          Nat.digits_def' (by norm_num : (1:ℕ) < 10) (Nat.succ_pos m)]
      have hle : (m + 1) / 10 ≤ f := by
        have h1 : (m + 1) / 10 < m + 1 := Nat.div_lt_self (Nat.succ_pos m) (by norm_num)
        omega
      rw [ih _ hle]

theorem natDigits_eq (n : ℕ) : natDigits n = Nat.digits 10 n :=
  natDigitsAux_eq n n le_rfl

theorem digitChar_inj_lt :
    ∀ a, a < 10 → ∀ b, b < 10 → digitChar a = digitChar b → a = b := by decide

theorem natDigits_lt_ten (n : ℕ) : ∀ d ∈ natDigits n, d < 10 := by
  rw [natDigits_eq]
  intro d hd
  exact Nat.digits_lt_base (by norm_num) hd

theorem map_digitChar_inj :
    ∀ (l1 l2 : List ℕ), (∀ d ∈ l1, d < 10) → (∀ d ∈ l2, d < 10) →
      l1.map digitChar = l2.map digitChar → l1 = l2 := by
  intro l1
  induction l1 with
  | nil =>
    intro l2 _ _ h
    cases l2 with
    | nil => rfl
    | cons b t => simp at h
  | cons a t ih =>
    intro l2 h1 h2 h
    cases l2 with
    | nil => simp at h
    | cons b t2 =>
      simp only [List.map_cons, List.cons.injEq] at h
      have hab : a = b :=
        digitChar_inj_lt a (h1 a (by simp)) b (h2 b (by simp)) h.1
      subst hab
      have ht : t = t2 :=
        ih t2 (fun d hd => h1 d (by simp [hd])) (fun d hd => h2 d (by simp [hd])) h.2
      rw [ht]

theorem natDigits_inj {m n : ℕ} (h : natDigits m = natDigits n) : m = n := by
  rw [natDigits_eq, natDigits_eq] at h
  calc m = Nat.ofDigits 10 (Nat.digits 10 m) := (Nat.ofDigits_digits 10 m).symm
    _ = Nat.ofDigits 10 (Nat.digits 10 n) := by rw [h]
    _ = n := Nat.ofDigits_digits 10 n

theorem natRepr_ne_zero_of_pos {n : ℕ} (hn : n ≠ 0) : natRepr n ≠ "0" := by
  intro h
  have hd : ((natDigits n).map digitChar).reverse = ['0'] := by
    have := congrArg String.data h
    rw [natRepr, if_neg hn] at this
    exact this
  have hmap : (natDigits n).map digitChar = ['0'] := by
    have := congrArg List.reverse hd
    simpa using this
  have hdig : natDigits n = [0] := by
    cases hnd : natDigits n with
    | nil => rw [hnd] at hmap; simp at hmap
    | cons d t =>
      rw [hnd] at hmap
      simp only [List.map_cons, List.cons.injEq] at hmap
      have hd10 : d < 10 := natDigits_lt_ten n d (by rw [hnd]; simp)
      have hd0 : d = 0 :=
        digitChar_inj_lt d hd10 0 (by norm_num) (by rw [hmap.1]; rfl)
      have ht : t = [] := List.map_eq_nil_iff.mp hmap.2
      rw [hd0, ht]
  rw [natDigits_eq] at hdig
  have hzero : n = 0 := by
    have hn' : n = Nat.ofDigits 10 (Nat.digits 10 n) := (Nat.ofDigits_digits 10 n).symm
    rw [hdig] at hn'
    simpa [Nat.ofDigits] using hn'
  exact hn hzero

theorem natRepr_inj {m n : ℕ} (h : natRepr m = natRepr n) : m = n := by
  by_cases hm : m = 0 <;> by_cases hn : n = 0
  · rw [hm, hn]
  · exfalso
    apply natRepr_ne_zero_of_pos hn
    rw [← h, hm]
    rfl
  · exfalso
    apply natRepr_ne_zero_of_pos hm
    rw [h, hn]
    rfl
  · apply natDigits_inj
    apply map_digitChar_inj _ _ (natDigits_lt_ten m) (natDigits_lt_ten n)
    have hd := congrArg String.data h
    rw [natRepr, natRepr, if_neg hm, if_neg hn] at hd
    have := congrArg List.reverse hd
    simpa using this

/-! ### String lemmas -/

theorem string_data_append (a b : String) : (a ++ b).data = a.data ++ b.data := by
  cases a
  cases b
  rfl

theorem string_append_right_inj {a b c d : String} (hlen : a.length = c.length)
    (h : a ++ b = c ++ d) : b = d := by
  have hd : a.data ++ b.data = c.data ++ d.data := by
    rw [← string_data_append, ← string_data_append, h]
  have hbd : b.data = d.data := (List.append_inj hd hlen).2
  cases b
  cases d
  exact congrArg String.mk (by simpa using hbd)

theorem symbolStem_length (i : ℕ) :
    (jsToUpper (jsSubstr (companies.getD (i % companies.length) "") 3)).length = 3 := by
  have hall : ∀ k, k < companies.length →
      (jsToUpper (jsSubstr (companies.getD k "") 3)).length = 3 := by decide
  exact hall _ (Nat.mod_lt _ (by decide))

theorem mkStock_symbol (i : ℕ) (g : GenRand) :
    (mkStock i g).symbol =
      jsToUpper (jsSubstr (companies.getD (i % companies.length) "") 3) ++ natRepr i := rfl

theorem mkStock_symbol_inj {i j : ℕ} {g g' : GenRand}
    (h : (mkStock i g).symbol = (mkStock j g').symbol) : i = j := by
  rw [mkStock_symbol, mkStock_symbol] at h
  have hr : natRepr i = natRepr j :=
    string_append_right_inj (by rw [symbolStem_length, symbolStem_length]) h
  exact natRepr_inj hr

/-! ### Arithmetic lemmas about `round2` -/

theorem round2_eq (q : ℚ) : round2 q = (⌊q * 100 + 1/2⌋ : ℚ) / 100 := rfl

theorem round2_mono {a b : ℚ} (h : a ≤ b) : round2 a ≤ round2 b := by
  rw [round2_eq, round2_eq]
  have hf : (⌊a * 100 + 1/2⌋ : ℤ) ≤ ⌊b * 100 + 1/2⌋ := Int.floor_mono (by linarith)
  have : ((⌊a * 100 + 1/2⌋ : ℤ) : ℚ) ≤ ((⌊b * 100 + 1/2⌋ : ℤ) : ℚ) := by
    exact_mod_cast hf
  linarith

theorem round2_le_add (q : ℚ) : round2 q ≤ q + 1/200 := by
  rw [round2_eq]
  have h := Int.floor_le (q * 100 + 1/2)
  linarith

theorem sub_lt_round2 (q : ℚ) : q - 1/200 < round2 q := by
  rw [round2_eq]
  have h := Int.lt_floor_add_one (q * 100 + 1/2)
  linarith

theorem intCast_le_round2 {k : ℤ} {q : ℚ} (h : (k : ℚ) ≤ q) :
    (k : ℚ) ≤ round2 q := by
  rw [round2_eq]
  have hf : (k * 100 : ℤ) ≤ ⌊q * 100 + 1/2⌋ := Int.le_floor.mpr (by push_cast; linarith)
  have : ((k * 100 : ℤ) : ℚ) ≤ ((⌊q * 100 + 1/2⌋ : ℤ) : ℚ) := by exact_mod_cast hf
  push_cast at this
  linarith

theorem round2_le_intCast {k : ℤ} {q : ℚ} (h : q < (k : ℚ)) :
    round2 q ≤ (k : ℚ) := by
  rw [round2_eq]
  have hf : ⌊q * 100 + 1/2⌋ < (k * 100 : ℤ) + 1 := by
    rw [Int.floor_lt]
    push_cast
    linarith
  have hf' : ⌊q * 100 + 1/2⌋ ≤ (k * 100 : ℤ) := by omega
  have : ((⌊q * 100 + 1/2⌋ : ℤ) : ℚ) ≤ ((k * 100 : ℤ) : ℚ) := by exact_mod_cast hf'
  push_cast at this
  linarith

theorem round2_intCast_div_add (k : ℤ) (d : ℚ) :
    round2 ((k : ℚ) / 100 + d) = ((k + jsRound (d * 100) : ℤ) : ℚ) / 100 := by
  rw [round2_eq, jsRound]
  have harg : ((k : ℚ) / 100 + d) * 100 + 1/2 = (k : ℚ) + (d * 100 + 1/2) := by ring
  rw [harg, Int.floor_int_add]

theorem round2_intCast_div (k : ℤ) : round2 ((k : ℚ) / 100) = (k : ℚ) / 100 := by
  have h := round2_intCast_div_add k 0
  have hz : jsRound (0 * 100 : ℚ) = 0 := by
    rw [jsRound]
    norm_num
  rw [hz] at h
  simpa using h

theorem round2_exists_intCast (q : ℚ) : round2 q = (jsRound (q * 100) : ℚ) / 100 := rfl

/-! ### Invariant lemmas for the mutator -/

theorem tickStock_price_ge_one (r : ℚ) (s : StockData) : 1 ≤ (tickStock r s).price := by
  have h1 : ((1 : ℤ) : ℚ) ≤ max 1 (s.price + (r - 1/2) * 5) := by
    push_cast
    exact le_max_left _ _
  have h2 := intCast_le_round2 h1
  push_cast at h2
  simpa [tickStock] using h2

theorem tickAllAux_price_ge_one (rand : ℕ → ℚ) :
    ∀ (i : ℕ) (l : List StockData) (st : StockData),
      st ∈ tickAllAux rand i l → 1 ≤ st.price := by
  intro i l
  induction l generalizing i with
  | nil =>
    intro st h
    simp [tickAllAux] at h
  | cons s rest ih =>
    intro st h
    rw [show tickAllAux rand i (s :: rest)
          = tickStock (rand i) s :: tickAllAux rand (i + 1) rest from rfl] at h
    rcases List.mem_cons.mp h with h1 | h2
    · rw [h1]
      exact tickStock_price_ge_one _ _
    · exact ih (i + 1) st h2

theorem mkStock_price_ge_one (i : ℕ) (g : GenRand) (h : 0 ≤ g.priceR) :
    1 ≤ (mkStock i g).price := by
  have hm : (0 : ℚ) ≤ g.priceR * 500 := mul_nonneg h (by norm_num)
  have h1 : ((1 : ℤ) : ℚ) ≤ g.priceR * 500 + 10 := by push_cast; linarith
  have h2 := intCast_le_round2 h1
  push_cast at h2
  simpa [mkStock] using h2

/-- C1: for every record in the collection, after any number of mutator
ticks (each tick adds a random delta, floors the result at 1.0 and rounds
to two decimals), the price is at least 1.0.  The initial collection comes
from `generateMockData`, whose price draws are `Math.random()` values,
hence nonnegative. -/
theorem price_ge_one_after_ticks (N : ℕ) (grand : ℕ → GenRand)
    (rands : ℕ → ℕ → ℚ) (n : ℕ) (h : ∀ i, 0 ≤ (grand i).priceR) :
    ∀ st ∈ tickN rands n (generateMockData N grand), 1 ≤ st.price := by
  cases n with
  | zero =>
    intro st hst
    rw [show tickN rands 0 (generateMockData N grand)
          = generateMockData N grand from rfl] at hst
    obtain ⟨i, _, rfl⟩ := List.mem_map.mp hst
    exact mkStock_price_ge_one i (grand i) (h i)
  | succ m =>
    intro st hst
    rw [show tickN rands (m + 1) (generateMockData N grand)
          = tickAllAux (rands m) 0 (tickN rands m (generateMockData N grand)) from rfl] at hst
    exact tickAllAux_price_ge_one (rands m) 0 _ st hst

/-- Witness for `price_ge_one_after_ticks` at a one-record collection,
zero draws, zero ticks. -/
theorem price_ge_one_after_ticks_witness :
    (∀ i : ℕ, 0 ≤ ((fun _ => (⟨0, 0, 0, 0, 0, 0⟩ : GenRand)) i).priceR) ∧
      1 ≤ (mkStock 0 (⟨0, 0, 0, 0, 0, 0⟩ : GenRand)).price :=
  ⟨fun _ => le_refl 0,
    price_ge_one_after_ticks 1 (fun _ => ⟨0, 0, 0, 0, 0, 0⟩) (fun _ _ => 0) 0
      (fun _ => le_refl 0) (mkStock 0 ⟨0, 0, 0, 0, 0, 0⟩)
      (by simp [tickN, generateMockData, List.range_succ])⟩

/-- C2 counterexample: starting from the record generated with all-zero
draws (price, day-high and day-low all equal to 10) and applying one
mutator tick with draw 0.501, the stored (rounded) price is 10.01 while
day-high is only 10.005: the claimed invariant day-high ≥ price fails. -/
theorem dayHigh_lt_price_cex :
    (tickStock (501/1000) (mkStock 0 ⟨0, 0, 0, 0, 0, 0⟩)).dayHigh <
      (tickStock (501/1000) (mkStock 0 ⟨0, 0, 0, 0, 0, 0⟩)).price := by
  norm_num [tickStock, mkStock, round2_eq, max_def]

/-- C2 amended: after each mutator update, day-high and day-low bracket
the stored price up to the half-cent introduced by rounding:
`price − 1/200 ≤ dayHigh` and `dayLow ≤ price + 1/200`. -/
theorem dayHigh_dayLow_near_price (r : ℚ) (s : StockData) :
    (tickStock r s).price - 1/200 ≤ (tickStock r s).dayHigh ∧
      (tickStock r s).dayLow ≤ (tickStock r s).price + 1/200 := by
  have hle := round2_le_add (max 1 (s.price + (r - 1/2) * 5))
  have hlt := sub_lt_round2 (max 1 (s.price + (r - 1/2) * 5))
  have hmax : max 1 (s.price + (r - 1/2) * 5)
      ≤ max s.dayHigh (max 1 (s.price + (r - 1/2) * 5)) := le_max_right _ _
  have hmin : min s.dayLow (max 1 (s.price + (r - 1/2) * 5))
      ≤ max 1 (s.price + (r - 1/2) * 5) := min_le_right _ _
  constructor
  · simp only [tickStock]
    linarith
  · simp only [tickStock]
    linarith

/-- C3 counterexample: at a record whose price, day-high and day-low are
all 1, a tick with draw 0 (delta −2.5) leaves day-low at 1 in the source
(the clamped new price 1 is used), whereas the claimed pre-clamp rule
would drop day-low to −1.5. -/
theorem tick_preclamp_cex :
    (tickStock 0 ⟨1, "TEC0", "TechCorp Inc.", "Technology", "NYSE",
        1, 1, 1, 1, 100000, 10000000⟩).dayLow ≠
      (tickStockPreClamp 0 ⟨1, "TEC0", "TechCorp Inc.", "Technology", "NYSE",
        1, 1, 1, 1, 100000, 10000000⟩).dayLow := by
  norm_num [tickStock, tickStockPreClamp, max_def, min_def]

/-- C3 amended: one mutator tick maps every record to a copy whose price
is the old price plus a delta `(r − 0.5) · 5 ∈ [−2.5, 2.5]`, floored at
1.0 and rounded to two decimals, and whose day-high/day-low are the
max/min of the old value with the new price — where the new price used
for day-high/day-low is the post-clamp (floored at 1.0) but pre-rounding
price. -/
theorem tick_fields (r : ℚ) (s : StockData) (h0 : 0 ≤ r) (h1 : r < 1) :
    (-5/2 ≤ (r - 1/2) * 5 ∧ (r - 1/2) * 5 ≤ 5/2) ∧
    (tickStock r s).price = round2 (max 1 (s.price + (r - 1/2) * 5)) ∧
    (tickStock r s).dayHigh = max s.dayHigh (max 1 (s.price + (r - 1/2) * 5)) ∧
    (tickStock r s).dayLow = min s.dayLow (max 1 (s.price + (r - 1/2) * 5)) :=
  ⟨⟨by linarith, by linarith⟩, rfl, rfl, rfl⟩

/-- Witness for `tick_fields` at draw 1/2 and a concrete record. -/
theorem tick_fields_witness :
    ((0:ℚ) ≤ 1/2 ∧ (1/2 : ℚ) < 1) ∧
    ((-5/2 ≤ ((1/2 : ℚ) - 1/2) * 5 ∧ ((1/2 : ℚ) - 1/2) * 5 ≤ 5/2) ∧
      (tickStock (1/2) (mkStock 0 ⟨0, 0, 0, 0, 0, 0⟩)).price
        = round2 (max 1 ((mkStock 0 ⟨0, 0, 0, 0, 0, 0⟩).price + ((1/2 : ℚ) - 1/2) * 5)) ∧
      (tickStock (1/2) (mkStock 0 ⟨0, 0, 0, 0, 0, 0⟩)).dayHigh
        = max (mkStock 0 ⟨0, 0, 0, 0, 0, 0⟩).dayHigh
            (max 1 ((mkStock 0 ⟨0, 0, 0, 0, 0, 0⟩).price + ((1/2 : ℚ) - 1/2) * 5)) ∧
      (tickStock (1/2) (mkStock 0 ⟨0, 0, 0, 0, 0, 0⟩)).dayLow
        = min (mkStock 0 ⟨0, 0, 0, 0, 0, 0⟩).dayLow
            (max 1 ((mkStock 0 ⟨0, 0, 0, 0, 0, 0⟩).price + ((1/2 : ℚ) - 1/2) * 5))) :=
  ⟨⟨by norm_num, by norm_num⟩,
    tick_fields (1/2) (mkStock 0 ⟨0, 0, 0, 0, 0, 0⟩) (by norm_num) (by norm_num)⟩

/-! ### Bounds on generated records -/

theorem jsRound_abs_le {y : ℚ} (hlo : -1000 ≤ y) (hhi : y < 1000) :
    -1000 ≤ jsRound y ∧ jsRound y ≤ 1000 := by
  constructor
  · exact Int.le_floor.mpr (by push_cast; linarith)
  · have h := Int.floor_lt.mpr (show y + 1/2 < ((1001 : ℤ) : ℚ) by push_cast; linarith)
    rw [jsRound]
    omega

theorem mkStock_price_bounds (i : ℕ) (g : GenRand)
    (h0 : 0 ≤ g.priceR) (h1 : g.priceR < 1) :
    10 ≤ (mkStock i g).price ∧ (mkStock i g).price ≤ 510 := by
  have hp : (mkStock i g).price = round2 (g.priceR * 500 + 10) := rfl
  constructor
  · rw [hp]
    have h := intCast_le_round2
      (show ((10 : ℤ) : ℚ) ≤ g.priceR * 500 + 10 by push_cast; nlinarith)
    push_cast at h
    exact h
  · rw [hp]
    have h := round2_le_intCast
      (show g.priceR * 500 + 10 < ((510 : ℤ) : ℚ) by push_cast; nlinarith)
    push_cast at h
    exact h

theorem mkStock_open_near_price (i : ℕ) (g : GenRand)
    (h0 : 0 ≤ g.openR) (h1 : g.openR < 1) :
    |(mkStock i g).openPrice - (mkStock i g).price| ≤ 10 := by
  have hbase : (mkStock i g).price
      = ((jsRound ((g.priceR * 500 + 10) * 100) : ℤ) : ℚ) / 100 := rfl
  have hopen : (mkStock i g).openPrice
      = round2 (((jsRound ((g.priceR * 500 + 10) * 100) : ℤ) : ℚ) / 100
          + (g.openR - 1/2) * 20) := rfl
  rw [hopen, hbase, round2_intCast_div_add]
  have hd0 : (-1000 : ℚ) ≤ (g.openR - 1/2) * 20 * 100 := by nlinarith
  have hd1 : (g.openR - 1/2) * 20 * 100 < 1000 := by nlinarith
  obtain ⟨hlo, hhi⟩ := jsRound_abs_le hd0 hd1
  have hlo' : ((-1000 : ℤ) : ℚ) ≤ (jsRound ((g.openR - 1/2) * 20 * 100) : ℚ) := by
    exact_mod_cast hlo
  have hhi' : (jsRound ((g.openR - 1/2) * 20 * 100) : ℚ) ≤ ((1000 : ℤ) : ℚ) := by
    exact_mod_cast hhi
  push_cast at hlo' hhi' ⊢
  rw [abs_le]
  constructor <;> [nlinarith; nlinarith]

theorem mkStock_low_price_high (i : ℕ) (g : GenRand)
    (hh : 0 ≤ g.highR) (hl : 0 ≤ g.lowR) :
    (mkStock i g).dayLow ≤ (mkStock i g).price ∧
      (mkStock i g).price ≤ (mkStock i g).dayHigh := by
  have hfix : round2 (((jsRound ((g.priceR * 500 + 10) * 100) : ℤ) : ℚ) / 100)
      = ((jsRound ((g.priceR * 500 + 10) * 100) : ℤ) : ℚ) / 100 :=
    round2_intCast_div _
  have hbase : (mkStock i g).price
      = ((jsRound ((g.priceR * 500 + 10) * 100) : ℤ) : ℚ) / 100 := rfl
  constructor
  · have hlow : (mkStock i g).dayLow
        = round2 (((jsRound ((g.priceR * 500 + 10) * 100) : ℤ) : ℚ) / 100
            - g.lowR * 15) := rfl
    rw [hlow, hbase, ← hfix]
    exact round2_mono (by nlinarith)
  · have hhigh : (mkStock i g).dayHigh
        = round2 (((jsRound ((g.priceR * 500 + 10) * 100) : ℤ) : ℚ) / 100
            + g.highR * 15) := rfl
    rw [hhigh, hbase, ← hfix]
    exact round2_mono (by nlinarith)

theorem mkStock_volume_bounds (i : ℕ) (g : GenRand)
    (h0 : 0 ≤ g.volR) (h1 : g.volR < 1) :
    100000 ≤ (mkStock i g).volume ∧ (mkStock i g).volume ≤ 10100000 := by
  have hv : (mkStock i g).volume = ⌊g.volR * 10000000⌋ + 100000 := rfl
  have hge : 0 ≤ ⌊g.volR * 10000000⌋ := Int.floor_nonneg.mpr (by positivity)
  have hlt : ⌊g.volR * 10000000⌋ < 10000000 := by
    rw [Int.floor_lt]
    push_cast
    nlinarith
  rw [hv]
  omega

theorem mkStock_marketCap_bounds (i : ℕ) (g : GenRand)
    (h0 : 0 ≤ g.capR) (h1 : g.capR < 1) :
    10000000 ≤ (mkStock i g).marketCap ∧ (mkStock i g).marketCap ≤ 1010000000 := by
  have hv : (mkStock i g).marketCap = ⌊g.capR * 1000000000⌋ + 10000000 := rfl
  have hge : 0 ≤ ⌊g.capR * 1000000000⌋ := Int.floor_nonneg.mpr (by positivity)
  have hlt : ⌊g.capR * 1000000000⌋ < 1000000000 := by
    rw [Int.floor_lt]
    push_cast
    nlinarith
  rw [hv]
  omega

/-- C4: every record returned by `generateMockData` (draws in `[0,1)`, the
range of `Math.random()`) has price in [10, 510], opening price within 10
of the price, volume an integer in [100000, 10100000] (it is an integer by
type: `Math.floor(...) + 100000` is embedded as `ℤ`), market cap an
integer in [10000000, 1010000000], and day-low ≤ price ≤ day-high at
generation time. -/
theorem generateMockData_bounds (n : ℕ) (rand : ℕ → GenRand)
    (h : ∀ i, (rand i).inUnit) :
    ∀ st ∈ generateMockData n rand,
      (10 ≤ st.price ∧ st.price ≤ 510) ∧
      |st.openPrice - st.price| ≤ 10 ∧
      (100000 ≤ st.volume ∧ st.volume ≤ 10100000) ∧
      (10000000 ≤ st.marketCap ∧ st.marketCap ≤ 1010000000) ∧
      (st.dayLow ≤ st.price ∧ st.price ≤ st.dayHigh) := by
  intro st hst
  obtain ⟨i, _, rfl⟩ := List.mem_map.mp hst
  obtain ⟨⟨hp0, hp1⟩, ⟨ho0, ho1⟩, ⟨hh0, _⟩, ⟨hl0, _⟩, ⟨hv0, hv1⟩, ⟨hc0, hc1⟩⟩ := h i
  exact ⟨mkStock_price_bounds i _ hp0 hp1,
    mkStock_open_near_price i _ ho0 ho1,
    mkStock_volume_bounds i _ hv0 hv1,
    mkStock_marketCap_bounds i _ hc0 hc1,
    mkStock_low_price_high i _ hh0 hl0⟩

/-- Witness for `generateMockData_bounds` at a one-record collection with
all-zero draws. -/
theorem generateMockData_bounds_witness :
    (∀ i : ℕ, ((fun _ => (⟨0, 0, 0, 0, 0, 0⟩ : GenRand)) i).inUnit) ∧
    ((10 ≤ (mkStock 0 (⟨0, 0, 0, 0, 0, 0⟩ : GenRand)).price ∧
        (mkStock 0 (⟨0, 0, 0, 0, 0, 0⟩ : GenRand)).price ≤ 510) ∧
      |(mkStock 0 (⟨0, 0, 0, 0, 0, 0⟩ : GenRand)).openPrice
          - (mkStock 0 (⟨0, 0, 0, 0, 0, 0⟩ : GenRand)).price| ≤ 10 ∧
      (100000 ≤ (mkStock 0 (⟨0, 0, 0, 0, 0, 0⟩ : GenRand)).volume ∧
        (mkStock 0 (⟨0, 0, 0, 0, 0, 0⟩ : GenRand)).volume ≤ 10100000) ∧
      (10000000 ≤ (mkStock 0 (⟨0, 0, 0, 0, 0, 0⟩ : GenRand)).marketCap ∧
        (mkStock 0 (⟨0, 0, 0, 0, 0, 0⟩ : GenRand)).marketCap ≤ 1010000000) ∧
      ((mkStock 0 (⟨0, 0, 0, 0, 0, 0⟩ : GenRand)).dayLow
          ≤ (mkStock 0 (⟨0, 0, 0, 0, 0, 0⟩ : GenRand)).price ∧
        (mkStock 0 (⟨0, 0, 0, 0, 0, 0⟩ : GenRand)).price
          ≤ (mkStock 0 (⟨0, 0, 0, 0, 0, 0⟩ : GenRand)).dayHigh)) :=
  ⟨fun _ => by norm_num [GenRand.inUnit],
    generateMockData_bounds 1 (fun _ => ⟨0, 0, 0, 0, 0, 0⟩)
      (fun _ => by norm_num [GenRand.inUnit])
      (mkStock 0 ⟨0, 0, 0, 0, 0, 0⟩)
      (by simp [generateMockData, List.range_succ])⟩

/-! ### Formatter lemmas -/

theorem jsToFixed2_of_jsRound {q : ℚ} {k : ℤ} (h : jsRound (q * 100) = k)
    (hk : 0 ≤ k) :
    jsToFixed2 q = natRepr (k.natAbs / 100) ++ "." ++
      (if k.natAbs % 100 < 10 then "0" else "") ++ natRepr (k.natAbs % 100) := by
  simp only [jsToFixed2, h]
  rw [if_neg (by omega)]
  simp

/-- C5: the volume formatter abbreviates with K at 1000 and with M at
1000000; the market-cap formatter abbreviates with M at 1000000 and with B
at 1000000000 (each to two decimal places); in particular a volume of
2500000 renders as "2.50M", a volume of 500 renders as "500", and a market
cap of 1500000000 renders as "$1.50B". -/
theorem formatter_suffix_tiers :
    (formatVolume 2500000 = "2.50M" ∧ formatVolume 500 = "500" ∧
      formatMarketCap 1500000000 = "$1.50B") ∧
    (∀ v : ℤ, 1000 ≤ v → v < 1000000 → ∃ s, formatVolume v = s ++ "K") ∧
    (∀ v : ℤ, 1000000 ≤ v → ∃ s, formatVolume v = s ++ "M") ∧
    (∀ c : ℤ, 1000000 ≤ c → c < 1000000000 →
      ∃ s, formatMarketCap c = "$" ++ s ++ "M") ∧
    (∀ c : ℤ, 1000000000 ≤ c → ∃ s, formatMarketCap c = "$" ++ s ++ "B") := by
  refine ⟨⟨?_, ?_, ?_⟩, ?_, ?_, ?_, ?_⟩
  · have h : jsRound (((2500000 : ℤ) : ℚ) / 1000000 * 100) = 250 := by
      rw [jsRound]
      norm_num
    rw [show formatVolume 2500000
          = jsToFixed2 (((2500000 : ℤ) : ℚ) / 1000000) ++ "M" from rfl,
        jsToFixed2_of_jsRound h (by norm_num)]
    decide
  · decide
  · have h : jsRound (((1500000000 : ℤ) : ℚ) / 1000000000 * 100) = 150 := by
      rw [jsRound]
      norm_num
    rw [show formatMarketCap 1500000000
          = "$" ++ jsToFixed2 (((1500000000 : ℤ) : ℚ) / 1000000000) ++ "B" from rfl,
        jsToFixed2_of_jsRound h (by norm_num)]
    decide
  · intro v h1 h2
    refine ⟨jsToFixed2 ((v : ℚ) / 1000), ?_⟩
    simp only [formatVolume]
    rw [if_neg (by omega), if_pos (by omega)]
  · intro v h1
    refine ⟨jsToFixed2 ((v : ℚ) / 1000000), ?_⟩
    simp only [formatVolume]
    rw [if_pos (by omega)]
  · intro c h1 h2
    refine ⟨jsToFixed2 ((c : ℚ) / 1000000), ?_⟩
    simp only [formatMarketCap]
    rw [if_neg (by omega), if_pos (by omega)]
  · intro c h1
    refine ⟨jsToFixed2 ((c : ℚ) / 1000000000), ?_⟩
    simp only [formatMarketCap]
    rw [if_pos (by omega)]

/-- Witness for `formatter_suffix_tiers`: the K tier applied at 5000. -/
theorem formatter_suffix_tiers_witness :
    ((1000 : ℤ) ≤ 5000 ∧ (5000 : ℤ) < 1000000) ∧
      ∃ s, formatVolume 5000 = s ++ "K" :=
  ⟨⟨by norm_num, by norm_num⟩,
    formatter_suffix_tiers.2.1 5000 (by norm_num) (by norm_num)⟩

/-! ### Frame condition of the mutator -/

theorem tickAllAux_length (rand : ℕ → ℚ) :
    ∀ (i : ℕ) (l : List StockData), (tickAllAux rand i l).length = l.length := by
  intro i l
  induction l generalizing i with
  | nil => rfl
  | cons s rest ih =>
    rw [show tickAllAux rand i (s :: rest)
          = tickStock (rand i) s :: tickAllAux rand (i + 1) rest from rfl]
    simp [ih]

theorem frameFields_tickStock (r : ℚ) (s : StockData) :
    frameFields (tickStock r s) = frameFields s := rfl

theorem tickAllAux_map_frameFields (rand : ℕ → ℚ) :
    ∀ (i : ℕ) (l : List StockData),
      (tickAllAux rand i l).map frameFields = l.map frameFields := by
  intro i l
  induction l generalizing i with
  | nil => rfl
  | cons s rest ih =>
    rw [show tickAllAux rand i (s :: rest)
          = tickStock (rand i) s :: tickAllAux rand (i + 1) rest from rfl]
    simp only [List.map_cons, frameFields_tickStock]
    rw [ih]

theorem tickAllAux_map_id (rand : ℕ → ℚ) :
    ∀ (i : ℕ) (l : List StockData),
      (tickAllAux rand i l).map StockData.id = l.map StockData.id := by
  intro i l
  induction l generalizing i with
  | nil => rfl
  | cons s rest ih =>
    rw [show tickAllAux rand i (s :: rest)
          = tickStock (rand i) s :: tickAllAux rand (i + 1) rest from rfl]
    simp only [List.map_cons]
    rw [ih]
    rfl

theorem tickAllAux_getD (rand : ℕ → ℚ) :
    ∀ (l : List StockData) (i j : ℕ), j < l.length →
      (tickAllAux rand i l).getD j emptyStock
        = tickStock (rand (i + j)) (l.getD j emptyStock) := by
  intro l
  induction l with
  | nil =>
    intro i j hj
    simp at hj
  | cons s rest ih =>
    intro i j hj
    rw [show tickAllAux rand i (s :: rest)
          = tickStock (rand i) s :: tickAllAux rand (i + 1) rest from rfl]
    cases j with
    | zero => simp
    | succ m =>
      have hm : m < rest.length := by simpa using hj
      have harg : i + 1 + m = i + (m + 1) := by omega
      simp only [List.getD_cons_succ]
      rw [ih (i + 1) m hm, harg]

/-- C6: a mutator tick changes no field other than price, day-high and
day-low (identifier, symbol, company, sector, exchange, opening price,
volume and market cap are unchanged), replaces every position by the
`tickStock` copy of the old record regardless of whether its values
changed, and neither adds nor removes records (same length, same
identifier list). -/
theorem tick_frame_condition (rand : ℕ → ℚ) (stocks : List StockData) :
    (tickAll rand stocks).length = stocks.length ∧
    (tickAll rand stocks).map frameFields = stocks.map frameFields ∧
    (tickAll rand stocks).map StockData.id = stocks.map StockData.id ∧
    ∀ j, j < stocks.length →
      (tickAll rand stocks).getD j emptyStock
        = tickStock (rand j) (stocks.getD j emptyStock) := by
  refine ⟨tickAllAux_length rand 0 stocks, tickAllAux_map_frameFields rand 0 stocks,
    tickAllAux_map_id rand 0 stocks, ?_⟩
  intro j hj
  have h := tickAllAux_getD rand stocks 0 j hj
  simpa using h

/-- Witness for `tick_frame_condition` on a one-record collection. -/
theorem tick_frame_condition_witness :
    0 < ([emptyStock] : List StockData).length ∧
      (tickAll (fun _ => 0) [emptyStock]).getD 0 emptyStock
        = tickStock ((fun _ => (0 : ℚ)) 0) (([emptyStock] : List StockData).getD 0 emptyStock) :=
  ⟨by norm_num,
    (tick_frame_condition (fun _ => 0) [emptyStock]).2.2.2 0 (by norm_num)⟩

/-! ### FPS status tiers -/

/-- C7: the frame-rate status mapping has exactly three tiers with
boundaries at 20 and 50: below 20 it is the poor status, from 20 to 49 the
reduced status, from 50 up the optimal status; in particular 19 maps to
poor, 20 and 49 to reduced, 50 to optimal; and no other status string ever
occurs. -/
theorem fps_status_tiers :
    (getStatusText 19 = "✗ Poor" ∧ getStatusText 20 = "⚠ Reduced" ∧
      getStatusText 49 = "⚠ Reduced" ∧ getStatusText 50 = "✓ Optimal") ∧
    (∀ fps : ℤ, fps < 20 → getStatusText fps = "✗ Poor") ∧
    (∀ fps : ℤ, 20 ≤ fps → fps < 50 → getStatusText fps = "⚠ Reduced") ∧
    (∀ fps : ℤ, 50 ≤ fps → getStatusText fps = "✓ Optimal") ∧
    (∀ fps : ℤ, getStatusText fps = "✗ Poor" ∨ getStatusText fps = "⚠ Reduced" ∨
      getStatusText fps = "✓ Optimal") := by
  refine ⟨⟨by decide, by decide, by decide, by decide⟩, ?_, ?_, ?_, ?_⟩
  · intro fps h
    simp only [getStatusText]
    rw [if_neg (by omega), if_neg (by omega)]
  · intro fps h1 h2
    simp only [getStatusText]
    rw [if_neg (by omega), if_pos (by omega)]
  · intro fps h
    simp only [getStatusText]
    rw [if_pos (by omega)]
  · intro fps
    simp only [getStatusText]
    split_ifs
    · exact Or.inr (Or.inr rfl)
    · exact Or.inr (Or.inl rfl)
    · exact Or.inl rfl

/-- Witness for `fps_status_tiers`: the poor tier applied at 0. -/
theorem fps_status_tiers_witness :
    (0 : ℤ) < 20 ∧ getStatusText 0 = "✗ Poor" :=
  ⟨by norm_num, fps_status_tiers.2.1 0 (by norm_num)⟩

/-! ### Row-local actions -/

/-- C8: toggling the watchlist control twice returns the local flag to its
original value, and neither the watchlist toggle nor the trade action
changes the shared record collection (or, for the trade action, anything
at all). -/
theorem watchlist_toggle_no_mutation :
    ∀ (stocks : List StockData) (w : Bool),
      watchlistClick (watchlistClick stocks w).1 (watchlistClick stocks w).2
        = (stocks, w) ∧
      (watchlistClick stocks w).1 = stocks ∧
      tradeClick stocks w = (stocks, w) := by
  intro stocks w
  refine ⟨?_, rfl, rfl⟩
  simp [watchlistClick]

/-- C9: if a record's opening price is 0, the percentage-change expression
`(price − openPrice) / openPrice · 100` of the row renderer evaluates to a
non-finite JS number (Infinity, −Infinity, or NaN when the price is also
0); the source contains no guard for this case, so `changePercent` is the
bare expression. -/
theorem changePercent_zero_open_nonfinite :
    ∀ price : ℚ, (changePercent price 0).isFinite = false := by
  intro price
  rcases lt_trichotomy price 0 with h | h | h
  · have hcp : changePercent price 0 = JsNum.negInf := by
      simp only [changePercent, jsDiv, sub_zero]
      rw [if_true, if_neg (by linarith), if_pos h,
        show jsMul JsNum.negInf (JsNum.fin 100)
          = if (0 : ℚ) < 100 then JsNum.negInf
            else if (100 : ℚ) < 0 then JsNum.posInf else JsNum.nan from rfl,
        if_pos (by norm_num)]
    rw [hcp]
    rfl
  · have hcp : changePercent price 0 = JsNum.nan := by
      simp only [changePercent, jsDiv, sub_zero]
      rw [if_true, if_neg (by linarith), if_neg (by linarith)]
      rfl
    rw [hcp]
    rfl
  · have hcp : changePercent price 0 = JsNum.posInf := by
      simp only [changePercent, jsDiv, sub_zero]
      rw [if_true, if_pos h,
        show jsMul JsNum.posInf (JsNum.fin 100)
          = if (0 : ℚ) < 100 then JsNum.posInf
            else if (100 : ℚ) < 0 then JsNum.negInf else JsNum.nan from rfl,
        if_pos (by norm_num)]
    rw [hcp]
    rfl

/-! ### Symbol uniqueness -/

/-- C10: any two distinct records produced by `generateMockData` have
distinct ticker symbols: each symbol is a three-letter upper-cased company
prefix followed by the decimal rendering of the record's unique loop
index. -/
theorem generateMockData_symbols_distinct (n : ℕ) (rand : ℕ → GenRand) :
    (generateMockData n rand).Pairwise (fun a b => a.symbol ≠ b.symbol) := by
  rw [generateMockData, List.pairwise_map]
  refine (List.nodup_range n).imp ?_
  intro i j hne hsym
  exact hne (mkStock_symbol_inj hsym)

end ReactPerf
